import Mathlib

/-!
Shallow embedding of the NeoNet ledger and PBFT-lite consensus core.

Part 1 models the SHA-256 digest used by the ledger (bytes in, lowercase
hex out), executable on Nat so that concrete blocks can be evaluated.
-/

namespace Sha

/-- Truncate to a 32-bit word. -/
def w32 (x : Nat) : Nat := x % 4294967296

/-- Rotate a 32-bit word right by n bits. -/
def rotr (x n : Nat) : Nat := w32 ((x >>> n) ||| (x <<< (32 - n)))

def s0 (x : Nat) : Nat := (rotr x 7) ^^^ (rotr x 18) ^^^ (x >>> 3)

def s1 (x : Nat) : Nat := (rotr x 17) ^^^ (rotr x 19) ^^^ (x >>> 10)

def bigS0 (x : Nat) : Nat := (rotr x 2) ^^^ (rotr x 13) ^^^ (rotr x 22)

def bigS1 (x : Nat) : Nat := (rotr x 6) ^^^ (rotr x 11) ^^^ (rotr x 25)

/-- The 64 SHA-256 round constants, written in decimal. -/
def K : List Nat :=
  [1116352408, 1899447441, 3049323471, 3921009573, 961987163,
   1508970993, 2453635748, 2870763221, 3624381080, 310598401,
   607225278, 1426881987, 1925078388, 2162078206, 2614888103,
   3248222580, 3835390401, 4022224774, 264347078, 604807628,
   770255983, 1249150122, 1555081692, 1996064986, 2554220882,
   2821834349, 2952996808, 3210313671, 3336571891, 3584528711,
   113926993, 338241895, 666307205, 773529912, 1294757372,
   1396182291, 1695183700, 1986661051, 2177026350, 2456956037,
   2730485921, 2820302411, 3259730800, 3345764771, 3516065817,
   3600352804, 4094571909, 275423344, 430227734, 506948616,
   659060556, 883997877, 958139571, 1322822218, 1537002063,
   1747873779, 1955562222, 2024104815, 2227730452, 2361852424,
   2428436474, 2756734187, 3204031479, 3329325298]

/-- Initial hash value, written in decimal. -/
def H0 : List Nat :=
  [1779033703, 3144134277, 1013904242, 2773480762, 1359893119,
   2600822924, 528734635, 1541459225]

/-- Group bytes into big-endian 32-bit words. -/
def bytesToWords : List Nat → List Nat
  | b0 :: b1 :: b2 :: b3 :: rest =>
      (b0 * 16777216 + b1 * 65536 + b2 * 256 + b3) :: bytesToWords rest
  | _ => []

/-- Extend the message schedule; the accumulator is kept reversed. -/
def schedule : Nat → List Nat → List Nat
  | 0, w => w.reverse
  | n+1, w =>
      schedule n (w32 (s1 (w.getD 1 0) + w.getD 6 0 + s0 (w.getD 14 0) + w.getD 15 0) :: w)

/-- One compression round; the state is the list [a,b,c,d,e,f,g,h]. -/
def round (st : List Nat) (kw : Nat × Nat) : List Nat :=
  let a := st.getD 0 0
  let b := st.getD 1 0
  let c := st.getD 2 0
  let d := st.getD 3 0
  let e := st.getD 4 0
  let f := st.getD 5 0
  let g := st.getD 6 0
  let h := st.getD 7 0
  let ch := (e &&& f) ^^^ ((4294967295 ^^^ e) &&& g)
  let maj := (a &&& b) ^^^ (a &&& c) ^^^ (b &&& c)
  let t1 := w32 (h + bigS1 e + ch + kw.1 + kw.2)
  let t2 := w32 (bigS0 a + maj)
  [w32 (t1 + t2), a, b, c, w32 (d + t1), e, f, g]

/-- Compress one 64-byte block into the running hash. -/
def compress (h : List Nat) (blockBytes : List Nat) : List Nat :=
  let ws := schedule 48 (bytesToWords blockBytes).reverse
  let st := (K.zip ws).foldl round h
  List.zipWith (fun x y => w32 (x + y)) h st

/-- Fold the compression over successive 64-byte chunks (fuel-driven). -/
def compressAll : Nat → List Nat → List Nat → List Nat
  | 0, h, _ => h
  | _+1, h, [] => h
  | n+1, h, bs => compressAll n (compress h (bs.take 64)) (bs.drop 64)

/-- Big-endian byte expansion of a number, fixed width. -/
def beBytes : Nat → Nat → List Nat
  | 0, _ => []
  | n+1, x => (x >>> (8 * n)) % 256 :: beBytes n x

/-- SHA-256 padding. -/
def pad (msg : List Nat) : List Nat :=
  let len := msg.length
  let zeros := (119 - len % 64) % 64
  msg ++ 0x80 :: List.replicate zeros 0 ++ beBytes 8 (len * 8)

/-- SHA-256 of a byte list, as the list of eight 32-bit words. -/
def sha256 (msg : List Nat) : List Nat :=
  let p := pad msg
  compressAll (p.length / 64) H0 p

def hexDigit (n : Nat) : Char := if n < 10 then Char.ofNat (48 + n) else Char.ofNat (87 + n)

/-- Lowercase hex of one 32-bit word (8 nibbles, big-endian). -/
def wordHex (w : Nat) : List Char :=
  [hexDigit ((w >>> 28) % 16), hexDigit ((w >>> 24) % 16), hexDigit ((w >>> 20) % 16),
   hexDigit ((w >>> 16) % 16), hexDigit ((w >>> 12) % 16), hexDigit ((w >>> 8) % 16),
   hexDigit ((w >>> 4) % 16), hexDigit (w % 16)]

/-- Lowercase hex digest of a byte list, as hex.EncodeToString(sha256.Sum256(...)). -/
def sha256Hex (msg : List Nat) : String :=
  String.mk (List.flatten ((sha256 msg).map wordHex))

/-- UTF-8 bytes of an ASCII string. -/
def strBytes (s : String) : List Nat := s.data.map Char.toNat

end Sha

set_option maxRecDepth 100000

example :
    Sha.sha256Hex (Sha.strBytes "abc")
      = "ba7816bf8f01cfea414140de5dae2223b00361a396177a9cb410ff61f20015ad" := by decide

/-!
Part 2: the Ledger Store (src/unnamed/part_012).  The chain is the list of
blocks; the mutex is erased, methods become functions from the chain (and
their other inputs) to the updated chain plus their Go return value.
-/

/-- Block, with the field names of the Go struct. -/
structure Block where
  PubKey : String
  Signature : String
  Index : Int
  Timestamp : String
  Data : String
  PrevHash : String
  Hash : String
  Nonce : Int
deriving DecidableEq

/-- calculateHash: sha256 hex of Sprintf with format d-s-s-s-d over
(Index, Timestamp, Data, PrevHash, Nonce). -/
def calculateHash (b : Block) : String :=
  Sha.sha256Hex (Sha.strBytes
    (toString b.Index ++ b.Timestamp ++ b.Data ++ b.PrevHash ++ toString b.Nonce))

/-- stringsRepeat, the local helper of the source. -/
def stringsRepeat (s : String) : Nat → String
  | 0 => ""
  | n+1 => stringsRepeat s n ++ s

/-- The fixed proof-of-work difficulty constant. -/
def difficulty : Nat := 2

/-- mine: increment the nonce until the hash has the leading-zero run, then
store that hash.  The unbounded Go loop is given explicit fuel. -/
def mine : Nat → Block → Option Block
  | 0, _ => none
  | fuel+1, b =>
      if (calculateHash { b with Nonce := b.Nonce + 1 }).take difficulty
          = stringsRepeat "0" difficulty then
        some { b with Nonce := b.Nonce + 1,
                      Hash := calculateHash { b with Nonce := b.Nonce + 1 } }
      else mine fuel { b with Nonce := b.Nonce + 1 }

/-- Latest: the last element of the chain, none when empty. -/
def Latest (chain : List Block) : Option Block := chain.getLast?

/-- AddBlock: validate against the latest block (skipping all checks when the
chain is empty), append on success; returns the Go boolean and the chain. -/
def AddBlock (chain : List Block) (b : Block) : Bool × List Block :=
  match Latest chain with
  | some latest =>
      if b.Index ≠ latest.Index + 1 then (false, chain)
      else if b.PrevHash ≠ latest.Hash then (false, chain)
      else if calculateHash b ≠ b.Hash then (false, chain)
      else (true, chain ++ [b])
  | none => (true, chain ++ [b])

/-- The adjacent-pair condition checked by ReplaceChain and LoadFromFile:
prev-hash linkage and recomputed hash of the later block. -/
def pairOk (prev curr : Block) : Bool :=
  curr.PrevHash = prev.Hash && calculateHash curr = curr.Hash

/-- All adjacent pairs of a candidate satisfy pairOk. -/
def chainOk : List Block → Bool
  | prev :: curr :: rest => pairOk prev curr && chainOk (curr :: rest)
  | _ => true

/-- ReplaceChain: install a strictly longer candidate whose adjacent pairs all
pass pairOk; otherwise keep the chain. -/
def ReplaceChain (chain newChain : List Block) : Bool × List Block :=
  if newChain.length ≤ chain.length then (false, chain)
  else if chainOk newChain then (true, newChain)
  else (false, chain)

/-- The validation loop of LoadFromFile: index of the first failing pair. -/
def chainErr : Block → List Block → Nat → Option Nat
  | _, [], _ => none
  | prev, curr :: rest, i =>
      if pairOk prev curr then chainErr curr rest (i+1) else some i

/-- LoadFromFile on an already decoded array: returns the resulting in-memory
chain and the error message, mirroring the Go control flow. -/
def LoadFromFile (chain arr : List Block) : List Block × Option String :=
  match arr with
  | [] => (chain, some "empty chain")
  | a :: rest =>
      match chainErr a rest 1 with
      | some i => (chain, some ("invalid chain at index " ++ toString i))
      | none => (arr, none)

/-- Replace the Data field of the block at one position (a tampering step). -/
def setData : List Block → Nat → String → List Block
  | [], _, _ => []
  | b :: bs, 0, d => { b with Data := d } :: bs
  | b :: bs, n+1, d => b :: setData bs n d


/-!
Concrete blocks used by witnesses and counterexamples.  Digest fields hold
the genuine SHA-256 values of the corresponding record strings.
-/

/-- A genesis-like resident block; its own hash is never inspected by AddBlock. -/
def gA : Block :=
  { PubKey := "", Signature := "", Index := 0, Timestamp := "t0", Data := "genesis",
    PrevHash := "", Hash := "h0", Nonce := 0 }

/-- A block correctly extending gA, with its real recomputed digest. -/
def bA : Block :=
  { PubKey := "", Signature := "", Index := 1, Timestamp := "t1", Data := "d1",
    PrevHash := "h0",
    Hash := "ccb962450d5c7aac8177d81491019432737f590b166c63343880ea2317c5f3d6", Nonce := 0 }

example : calculateHash bA = bA.Hash := by decide

/-!
Part 3: signature checking and the block wire-message path
(src/unnamed/part_012 VerifyBlockSignature, src/go-consensus handleConn).
The ed25519 primitive is library code outside the repository and is kept
abstract as a verification oracle over byte lists.
-/

/-- Hex value of one character, as hex.DecodeString accepts. -/
def hexVal (c : Char) : Option Nat :=
  if 48 ≤ c.toNat ∧ c.toNat ≤ 57 then some (c.toNat - 48)
  else if 97 ≤ c.toNat ∧ c.toNat ≤ 102 then some (c.toNat - 87)
  else if 65 ≤ c.toNat ∧ c.toNat ≤ 70 then some (c.toNat - 55)
  else none

def hexDecodeChars : List Char → Option (List Nat)
  | [] => some []
  | [_] => none
  | c1 :: c2 :: rest =>
      match hexVal c1, hexVal c2, hexDecodeChars rest with
      | some h, some l, some bs => some ((h * 16 + l) :: bs)
      | _, _, _ => none

/-- hex.DecodeString: even length and hex digits only, else failure. -/
def hexDecode (s : String) : Option (List Nat) := hexDecodeChars s.data

/-- The external ed25519.Verify primitive: public key bytes, message bytes,
signature bytes. -/
def EdVerify : Type := List Nat → List Nat → List Nat → Bool

/-- VerifyBlockSignature: fail on empty fields or bad hex, else verify the
signature over the recomputed block hash. -/
def VerifyBlockSignature (ver : EdVerify) (b : Block) : Bool :=
  if b.Signature = "" ∨ b.PubKey = "" then false
  else
    match hexDecode b.PubKey with
    | none => false
    | some pub =>
      match hexDecode b.Signature with
      | none => false
      | some sig => ver pub (Sha.strBytes (calculateHash b)) sig

/-- The block wire-message case of handleConn: verify the signature, then
AddBlock; returns the chain, whether the block was broadcast onward, and
whether a chain resync was requested. -/
def handleBlockMsg (ver : EdVerify) (chain : List Block) (b : Block) :
    List Block × Bool × Bool :=
  if VerifyBlockSignature ver b then
    match AddBlock chain b with
    | (true, c2) => (c2, true, false)
    | (false, c2) => (c2, false, true)
  else (chain, false, false)

/-!
Part 4: the PBFT-lite vote accumulation (src/go-consensus wasm_runtime.go).
Go maps become association lists; the nested maps prepares[seq][voter] and
commits[seq][voter] keep the keying of the source.  Reading validators.json
becomes an Option parameter; the HTTP layer is erased, each handler returns
its updated table and whether its quorum action fired.
-/

structure PrepareMsg where
  View : Int
  Seq : Int
  Hash : String
  Voter : String
  Sig : String
deriving DecidableEq

structure CommitMsg where
  View : Int
  Seq : Int
  Hash : String
  Voter : String
  Sig : String
deriving DecidableEq

/-- getValidatorList: the roster file when readable and non-empty, otherwise
the current peer list. -/
def getValidatorList (roster : Option (List String)) (peers : List String) : List String :=
  match roster with
  | some r => if r.length > 0 then r else peers
  | none => peers

/-- Go map write m[k] = v on a voter-keyed map: overwrite when present. -/
def mapInsert {α : Type} (m : List (String × α)) (k : String) (v : α) :
    List (String × α) :=
  if (m.map Prod.fst).contains k then
    m.map (fun p => if p.1 = k then (k, v) else p)
  else m ++ [(k, v)]

/-- Read of the nested map at a sequence (a nil inner map is empty). -/
def seqGet {α : Type} (m : List (Int × List (String × α))) (s : Int) :
    List (String × α) :=
  match m.find? (fun p => p.1 == s) with
  | some p => p.2
  | none => []

/-- Write of the nested map at a sequence. -/
def seqSet {α : Type} (m : List (Int × List (String × α))) (s : Int)
    (v : List (String × α)) : List (Int × List (String × α)) :=
  if (m.map Prod.fst).contains s then
    m.map (fun p => if p.1 = s then (s, v) else p)
  else m ++ [(s, v)]

/-- HandlePBFTPrepare: store the vote under (sequence, voter), then compare
the voter count at that sequence with the quorum; the Bool says whether the
Commit broadcast fired. -/
def HandlePBFTPrepare (roster : Option (List String)) (peers : List String)
    (prepares : List (Int × List (String × PrepareMsg))) (pm : PrepareMsg) :
    List (Int × List (String × PrepareMsg)) × Bool :=
  let m := mapInsert (seqGet prepares pm.Seq) pm.Voter pm
  let cnt := m.length
  let val := getValidatorList roster peers
  let need := 2 * val.length / 3 + 1
  (seqSet prepares pm.Seq m, decide (cnt ≥ need))

/-- HandlePBFTCommit: store the vote under (sequence, voter); the Bool says
whether the commit notification to the execution bridge fired. -/
def HandlePBFTCommit (roster : Option (List String)) (peers : List String)
    (commits : List (Int × List (String × CommitMsg))) (cm : CommitMsg) :
    List (Int × List (String × CommitMsg)) × Bool :=
  let m := mapInsert (seqGet commits cm.Seq) cm.Voter cm
  let cnt := m.length
  let val := getValidatorList roster peers
  let need := 2 * val.length / 3 + 1
  (seqSet commits cm.Seq m, decide (cnt ≥ need))

/-- Number of distinct voter identities recorded in a voter-keyed map. -/
def distinctVoters {α : Type} (m : List (String × α)) : Nat :=
  (m.map Prod.fst).dedup.length

/-!
Further concrete data for witnesses and counterexamples.
-/

/-- First element of the C2 candidate; its own hash field is arbitrary. -/
def b0x : Block :=
  { PubKey := "", Signature := "", Index := 0, Timestamp := "t0", Data := "d0",
    PrevHash := "", Hash := "deadbeef", Nonce := 0 }

/-- Second element: correct linkage and correct recomputed digest, but an
index jumping to 7. -/
def b1x : Block :=
  { PubKey := "", Signature := "", Index := 7, Timestamp := "t1", Data := "d1",
    PrevHash := "deadbeef",
    Hash := "039b1ecd5a31a02e181decbe8798b27325241c9c6cc84ffd03344196cd334ad0", Nonce := 0 }

example : calculateHash b1x = b1x.Hash := by decide

/-- A fully valid five-block persisted chain, genuine digests throughout. -/
def p0 : Block :=
  { PubKey := "", Signature := "", Index := 0, Timestamp := "t0", Data := "d0",
    PrevHash := "",
    Hash := "ea6f59b75d8a75510dcbdd747d1394e805c425d66f1eb456bed6d047fcfbdeb4", Nonce := 0 }

def p1 : Block :=
  { PubKey := "", Signature := "", Index := 1, Timestamp := "t1", Data := "d1",
    PrevHash := "ea6f59b75d8a75510dcbdd747d1394e805c425d66f1eb456bed6d047fcfbdeb4",
    Hash := "a9daa117d32dd6dae26628ee3c582ccbfb1aff0b02034e11aecafe56b28ad95f", Nonce := 0 }

def p2 : Block :=
  { PubKey := "", Signature := "", Index := 2, Timestamp := "t2", Data := "d2",
    PrevHash := "a9daa117d32dd6dae26628ee3c582ccbfb1aff0b02034e11aecafe56b28ad95f",
    Hash := "95ed3757df830dd0d2f5d9f2703c61ba16b8290013ef2ba40800590bb26c3790", Nonce := 0 }

def p3 : Block :=
  { PubKey := "", Signature := "", Index := 3, Timestamp := "t3", Data := "d3",
    PrevHash := "95ed3757df830dd0d2f5d9f2703c61ba16b8290013ef2ba40800590bb26c3790",
    Hash := "fceb919ff06b766033836dbb405294048856fa09b880907fa83df536a7250ee0", Nonce := 0 }

def p4 : Block :=
  { PubKey := "", Signature := "", Index := 4, Timestamp := "t4", Data := "d4",
    PrevHash := "fceb919ff06b766033836dbb405294048856fa09b880907fa83df536a7250ee0",
    Hash := "0c0c54c1f9dc6b4c39984d09b0eea9d04bc6b779ca6ef1de198609d7d8150955", Nonce := 0 }

def chain5 : List Block := [p0, p1, p2, p3, p4]

example : chainOk chain5 = true := by decide

/-- A resident genesis for the difficulty counterexample. -/
def g7 : Block :=
  { PubKey := "", Signature := "", Index := 0, Timestamp := "t0", Data := "g",
    PrevHash := "", Hash := "g7hash", Nonce := 0 }

/-- A block passing every AddBlock check whose genuine digest does not start
with the difficulty prefix of zeros. -/
def b7 : Block :=
  { PubKey := "", Signature := "", Index := 1, Timestamp := "t", Data := "d",
    PrevHash := "g7hash",
    Hash := "c31bdcfcdafe9bacd8571dc961793cf28aa7ac2ea3c3bbb53f2b5ae6f3c671d4", Nonce := 0 }

example : calculateHash b7 = b7.Hash ∧ b7.Hash.take difficulty ≠ "00" := by decide

/-- Mining witness input: one nonce step away from a digest starting 00. -/
def bm : Block :=
  { PubKey := "", Signature := "", Index := 1, Timestamp := "t", Data := "d",
    PrevHash := "p", Hash := "", Nonce := 47 }

/-- The sealed result of mining bm for one step. -/
def bmOut : Block :=
  { PubKey := "", Signature := "", Index := 1, Timestamp := "t", Data := "d",
    PrevHash := "p",
    Hash := "003e5da764227ebbd1d9b3909494bd7ea7abb5ded95cd66941c85b8ab2a9d5d5", Nonce := 48 }

example : mine 1 bm = some bmOut := by decide

/-- Three prepare votes at one sequence: two hashes, three voters. -/
def pm1 : PrepareMsg := { View := 0, Seq := 1, Hash := "hx1", Voter := "v1", Sig := "" }

def pm2 : PrepareMsg := { View := 0, Seq := 1, Hash := "hx2", Voter := "v2", Sig := "" }

def pm3 : PrepareMsg := { View := 0, Seq := 1, Hash := "hx2", Voter := "v3", Sig := "" }

/-- A three-validator roster. -/
def roster3 : Option (List String) := some ["a", "b", "c"]

/-!
Theorems.  Each claim of the specification gets one theorem below, with
witnesses and counterexamples on concrete data.
-/

/-- C1: on a non-empty chain, AddBlock appends the block as the new last
element and returns true exactly when the index is contiguous, the prev-hash
links to the latest block, and the recomputed hash matches the stored one;
when any check fails it returns false and leaves the chain unchanged. -/
theorem C1_addblock_validation (chain : List Block) (b latest : Block)
    (h : Latest chain = some latest) :
    (AddBlock chain b = (true, chain ++ [b]) ↔
      (b.Index = latest.Index + 1 ∧ b.PrevHash = latest.Hash ∧
        calculateHash b = b.Hash)) ∧
    (¬ (b.Index = latest.Index + 1 ∧ b.PrevHash = latest.Hash ∧
        calculateHash b = b.Hash) →
      AddBlock chain b = (false, chain)) := by
  unfold AddBlock
  rw [h]
  by_cases h1 : b.Index = latest.Index + 1 <;>
    by_cases h2 : b.PrevHash = latest.Hash <;>
    by_cases h3 : calculateHash b = b.Hash <;>
    simp [h1, h2, h3, Prod.ext_iff]

/-- Witness for C1 on a concrete two-block situation. -/
theorem C1_addblock_validation_witness :
    Latest [gA] = some gA ∧
    ((AddBlock [gA] bA = (true, [gA] ++ [bA]) ↔
      (bA.Index = gA.Index + 1 ∧ bA.PrevHash = gA.Hash ∧
        calculateHash bA = bA.Hash)) ∧
     (¬ (bA.Index = gA.Index + 1 ∧ bA.PrevHash = gA.Hash ∧
        calculateHash bA = bA.Hash) →
      AddBlock [gA] bA = (false, [gA]))) :=
  ⟨rfl, C1_addblock_validation [gA] bA gA rfl⟩

/-- C10: on an empty chain AddBlock appends any block whatsoever and returns
true; no index, prev-hash, hash or signature check runs in that state. -/
theorem C10_addblock_empty_accepts_any (b : Block) :
    AddBlock [] b = (true, [b]) := rfl

/-- Helper: a successful AddBlock appended the block at the end. -/
theorem addBlock_true_append (chain : List Block) (b : Block)
    (h : (AddBlock chain b).1 = true) : (AddBlock chain b).2 = chain ++ [b] := by
  unfold AddBlock at h ⊢
  cases hl : Latest chain with
  | none => simp
  | some latest =>
      dsimp only at h ⊢
      split_ifs at h ⊢ <;> simp_all

/-- C9: after a successful AddBlock, adding the identical block again returns
false and leaves the chain unchanged, so double delivery yields one entry. -/
theorem C9_addblock_idempotent (chain : List Block) (b : Block)
    (h : (AddBlock chain b).1 = true) :
    AddBlock (AddBlock chain b).2 b = (false, (AddBlock chain b).2) := by
  rw [addBlock_true_append chain b h]
  unfold AddBlock Latest
  rw [List.getLast?_concat]
  have hne : b.Index ≠ b.Index + 1 := by omega
  simp [hne]

/-- Witness for C9: deliver one block twice into an empty chain. -/
theorem C9_addblock_idempotent_witness :
    (AddBlock [] gA).1 = true ∧
    AddBlock (AddBlock [] gA).2 gA = (false, (AddBlock [] gA).2) :=
  ⟨rfl, C9_addblock_idempotent [] gA rfl⟩

/-- Default block for positional access. -/
def blockD : Block :=
  { PubKey := "", Signature := "", Index := 0, Timestamp := "", Data := "",
    PrevHash := "", Hash := "", Nonce := 0 }

/-- Spec-style statement of the pair checks actually performed: prev-hash
linkage plus hash recomputation of the later block of every adjacent pair. -/
def chainPairsProp (c : List Block) : Prop :=
  ∀ i, i + 1 < c.length →
    ((c.getD (i+1) blockD).PrevHash = (c.getD i blockD).Hash ∧
     calculateHash (c.getD (i+1) blockD) = (c.getD (i+1) blockD).Hash)

theorem pairOk_iff (prev curr : Block) :
    pairOk prev curr = true ↔
      (curr.PrevHash = prev.Hash ∧ calculateHash curr = curr.Hash) := by
  simp [pairOk]

theorem chainOk_iff : ∀ c : List Block, chainOk c = true ↔ chainPairsProp c
  | [] => by
      constructor
      · intro _ i hi
        simp at hi
      · intro _
        rfl
  | [b] => by
      constructor
      · intro _ i hi
        simp at hi
      · intro _
        rfl
  | p :: c :: rest => by
      rw [chainOk, Bool.and_eq_true, pairOk_iff, chainOk_iff (c :: rest)]
      constructor
      · rintro ⟨hp, hrest⟩ i hi
        cases i with
        | zero => simpa using hp
        | succ j =>
            have hj : j + 1 < (c :: rest).length := by
              simp at hi ⊢
              omega
            simpa using hrest j hj
      · intro hall
        refine ⟨?_, ?_⟩
        · simpa using hall 0 (by simp)
        · intro j hj
          have hj2 : (j + 1) + 1 < (p :: c :: rest).length := by
            simp at hj ⊢
            omega
          simpa using hall (j+1) hj2

/-- C2 counterexample: ReplaceChain accepts and installs a strictly longer
candidate whose second block jumps from index 0 to index 7, because the
index-contiguity clause of the invariant is never checked. -/
theorem C2_counterexample :
    ReplaceChain [] [b0x, b1x] = (true, [b0x, b1x]) ∧ b1x.Index ≠ b0x.Index + 1 := by
  decide

/-- C2 amended: ReplaceChain installs the candidate exactly when it is
strictly longer and every adjacent pair satisfies prev-hash linkage and hash
recomputation of the later block (index contiguity is not required);
otherwise it returns false and keeps the chain, so a same-length or shorter
candidate is never substituted. -/
theorem C2_replacechain_amended (chain newChain : List Block) :
    ((ReplaceChain chain newChain).1 = true ↔
      (chain.length < newChain.length ∧ chainPairsProp newChain)) ∧
    ((ReplaceChain chain newChain).1 = true →
      (ReplaceChain chain newChain).2 = newChain) ∧
    ((ReplaceChain chain newChain).1 = false →
      (ReplaceChain chain newChain).2 = chain) ∧
    (newChain.length ≤ chain.length → ReplaceChain chain newChain = (false, chain)) := by
  have hiff := chainOk_iff newChain
  unfold ReplaceChain
  split_ifs with h1 h2
  · refine ⟨?_, ?_, ?_, ?_⟩
    · constructor
      · intro hf
        simp at hf
      · rintro ⟨hl, _⟩
        omega
    · intro hf
      simp at hf
    · intro _
      rfl
    · intro _
      rfl
  · refine ⟨?_, ?_, ?_, ?_⟩
    · constructor
      · intro _
        exact ⟨by omega, hiff.mp h2⟩
      · intro _
        rfl
    · intro _
      rfl
    · intro hf
      simp at hf
    · intro hle
      omega
  · refine ⟨?_, ?_, ?_, ?_⟩
    · constructor
      · intro hf
        simp at hf
      · rintro ⟨_, hp⟩
        exact absurd (hiff.mpr hp) h2
    · intro hf
      simp at hf
    · intro _
      rfl
    · intro _
      rfl

theorem setData_length : ∀ (l : List Block) (i : Nat) (d : String),
    (setData l i d).length = l.length
  | [], _, _ => rfl
  | _ :: _, 0, _ => rfl
  | b :: bs, n+1, d => by simp [setData, setData_length bs n d]

theorem setData_getD_ne : ∀ (l : List Block) (i j : Nat) (d : String), j ≠ i →
    (setData l i d).getD j blockD = l.getD j blockD
  | [], _, _, _, _ => by simp [setData]
  | b :: bs, 0, j, d, h => by
      cases j with
      | zero => exact absurd rfl h
      | succ k => simp [setData]
  | b :: bs, n+1, j, d, h => by
      cases j with
      | zero => simp [setData]
      | succ k =>
          simp only [setData, List.getD_cons_succ]
          exact setData_getD_ne bs n k d (by omega)

theorem setData_getD_eq : ∀ (l : List Block) (i : Nat) (d : String), i < l.length →
    (setData l i d).getD i blockD = { l.getD i blockD with Data := d }
  | [], i, d, h => by simp at h
  | b :: bs, 0, d, _ => by simp [setData]
  | b :: bs, n+1, d, h => by
      simp only [setData, List.getD_cons_succ]
      exact setData_getD_eq bs n d (by simp at h; omega)

/-- A valid chain passes every positional pair check. -/
theorem chainOk_pairs : ∀ (a : Block) (rest : List Block), chainOk (a :: rest) = true →
    ∀ j, j < rest.length →
      pairOk ((a :: rest).getD j blockD) (rest.getD j blockD) = true
  | a, [], _, j, hj => by simp at hj
  | a, c :: rs, h, 0, _ => by
      rw [chainOk, Bool.and_eq_true] at h
      simpa using h.1
  | a, c :: rs, h, j+1, hj => by
      rw [chainOk, Bool.and_eq_true] at h
      simpa using chainOk_pairs c rs h.2 j (by simp at hj; omega)

/-- The LoadFromFile scan reports the first failing pair, at its loop index. -/
theorem chainErr_finds_first : ∀ (prev : Block) (rest : List Block) (base k : Nat),
    k < rest.length →
    (∀ j, j < k →
      pairOk ((prev :: rest).getD j blockD) (rest.getD j blockD) = true) →
    pairOk ((prev :: rest).getD k blockD) (rest.getD k blockD) = false →
    chainErr prev rest base = some (base + k)
  | prev, [], base, k, hk, _, _ => by simp at hk
  | prev, c :: rs, base, 0, _, _, hbad => by
      simp only [List.getD_cons_zero] at hbad
      simp [chainErr, hbad]
  | prev, c :: rs, base, k+1, hk, hgood, hbad => by
      have h0 : pairOk prev c = true := by simpa using hgood 0 (by omega)
      have hrec := chainErr_finds_first c rs (base+1) k
        (by simp at hk; omega)
        (fun j hj => by simpa using hgood (j+1) (by omega))
        (by simpa using hbad)
      simp only [chainErr, h0, if_true]
      rw [hrec]
      congr 1
      omega

/-- C6: take any internally valid persisted chain and alter the payload of
the block at position i > 0 so that its recomputed hash no longer matches the
stored hash; LoadFromFile then returns the validation error naming index i
and leaves the in-memory chain unchanged. -/
theorem C6_loadfromfile_tamper (cur arr : List Block) (i : Nat) (d : String)
    (hok : chainOk arr = true) (h1 : 1 ≤ i) (h2 : i < arr.length)
    (hbad : calculateHash ((setData arr i d).getD i blockD) ≠
      ((setData arr i d).getD i blockD).Hash) :
    LoadFromFile cur (setData arr i d) =
      (cur, some ("invalid chain at index " ++ toString i)) := by
  cases arr with
  | nil => simp at h2
  | cons a rest =>
      cases i with
      | zero => omega
      | succ k =>
          have hkr : k < rest.length := by simp at h2; omega
          have hset : setData (a :: rest) (k+1) d = a :: setData rest k d := rfl
          have hscan : chainErr a (setData rest k d) 1 = some (1 + k) := by
            apply chainErr_finds_first
            · rw [setData_length]
              exact hkr
            · intro j hj
              have hji : (a :: setData rest k d).getD j blockD
                  = (a :: rest).getD j blockD := by
                rw [← hset]
                exact setData_getD_ne (a :: rest) (k+1) j d (by omega)
              have hji2 : (setData rest k d).getD j blockD = rest.getD j blockD :=
                setData_getD_ne rest k j d (by omega)
              rw [hji, hji2]
              exact chainOk_pairs a rest hok j (by omega)
            · have hY : (setData (a :: rest) (k+1) d).getD (k+1) blockD =
                  (setData rest k d).getD k blockD := by
                rw [hset, List.getD_cons_succ]
              rw [hY] at hbad
              simp only [pairOk, Bool.and_eq_false_iff, decide_eq_false_iff_not]
              right
              exact hbad
          show LoadFromFile cur (a :: setData rest k d) = _
          unfold LoadFromFile
          dsimp only
          rw [hscan]
          rw [Nat.add_comm 1 k]

/-- Witness for C6: a five-block persisted chain with block 3 payload altered
is rejected at index 3 and the in-memory chain is kept. -/
theorem C6_loadfromfile_tamper_witness :
    chainOk chain5 = true ∧ 1 ≤ 3 ∧ 3 < chain5.length ∧
    calculateHash ((setData chain5 3 "dX").getD 3 blockD) ≠
      ((setData chain5 3 "dX").getD 3 blockD).Hash ∧
    LoadFromFile [gA] (setData chain5 3 "dX") =
      ([gA], some ("invalid chain at index " ++ toString 3)) :=
  ⟨by decide, by decide, by decide, by decide,
   C6_loadfromfile_tamper [gA] chain5 3 "dX" (by decide) (by decide) (by decide)
     (by decide)⟩

/-- C7 counterexample: AddBlock admits a non-genesis block that passes the
contiguity, linkage and hash checks although its hash does not carry the
difficulty run of zero nibbles, so admission does not preserve the
proof-of-work invariant. -/
theorem C7_counterexample :
    AddBlock [g7] b7 = (true, [g7, b7]) ∧ b7.Index ≠ 0 ∧
    b7.Hash.take difficulty ≠ stringsRepeat "0" difficulty := by
  decide

/-- C7 amended: blocks sealed by the mining loop do satisfy the difficulty
run of leading zero nibbles and carry their recomputed hash, but neither
AddBlock nor ReplaceChain checks that run, so the invariant holds only for
locally sealed blocks, not for every admitted block. -/
theorem C7_amended_mine_pow (fuel : Nat) (b b2 : Block) (h : mine fuel b = some b2) :
    b2.Hash.take difficulty = stringsRepeat "0" difficulty ∧
    calculateHash b2 = b2.Hash := by
  induction fuel generalizing b with
  | zero => simp [mine] at h
  | succ n ih =>
      rw [mine] at h
      by_cases hp : (calculateHash { b with Nonce := b.Nonce + 1 }).take difficulty
          = stringsRepeat "0" difficulty
      · rw [if_pos hp] at h
        injection h with h2
        subst h2
        exact ⟨hp, rfl⟩
      · rw [if_neg hp] at h
        exact ih _ h

/-- Witness for the amended C7: one mining step from nonce 47 seals the
block whose digest starts with two zero nibbles. -/
theorem C7_amended_mine_pow_witness :
    mine 1 bm = some bmOut ∧
    (bmOut.Hash.take difficulty = stringsRepeat "0" difficulty ∧
     calculateHash bmOut = bmOut.Hash) :=
  ⟨by decide, C7_amended_mine_pow 1 bm bmOut (by decide)⟩

/-- A verification oracle accepting everything, for concrete instantiation. -/
def verAll : EdVerify := fun _ _ _ => true

/-- A block with populated hex signature fields. -/
def bSig : Block :=
  { PubKey := "aa", Signature := "bb", Index := 1, Timestamp := "t", Data := "d",
    PrevHash := "", Hash := "", Nonce := 0 }

/-- The same block with an empty signature field. -/
def bNoSig : Block :=
  { PubKey := "aa", Signature := "", Index := 1, Timestamp := "t", Data := "d",
    PrevHash := "", Hash := "", Nonce := 0 }

/-- C8: a block arriving on the wire is appended only when its signature
decodes and verifies under the decoded public key over the recomputed block
hash; a block with an empty signature or public-key field leaves the chain
unchanged, with no broadcast and no resync request. -/
theorem C8_block_requires_signature (ver : EdVerify) (chain : List Block) (b : Block) :
    ((handleBlockMsg ver chain b).1 ≠ chain →
      ∃ pub sig, hexDecode b.PubKey = some pub ∧ hexDecode b.Signature = some sig ∧
        ver pub (Sha.strBytes (calculateHash b)) sig = true) ∧
    (b.Signature = "" ∨ b.PubKey = "" →
      handleBlockMsg ver chain b = (chain, false, false)) := by
  constructor
  · intro hne
    by_cases hv : VerifyBlockSignature ver b = true
    · unfold VerifyBlockSignature at hv
      split_ifs at hv with h0
      cases hpub : hexDecode b.PubKey with
        | none =>
            rw [hpub] at hv
            simp at hv
        | some pub =>
            rw [hpub] at hv
            cases hsig : hexDecode b.Signature with
            | none =>
                rw [hsig] at hv
                simp at hv
            | some sig =>
                rw [hsig] at hv
                exact ⟨pub, sig, rfl, rfl, hv⟩
    · exfalso
      apply hne
      unfold handleBlockMsg
      rw [if_neg hv]
  · intro hemp
    have hv : VerifyBlockSignature ver b = false := by
      unfold VerifyBlockSignature
      rw [if_pos hemp]
    unfold handleBlockMsg
    rw [hv]
    simp

/-- Witness for C8: an accepting oracle appends a signed block, and the
empty-signature variant is dropped with no state change. -/
theorem C8_block_requires_signature_witness :
    (handleBlockMsg verAll [] bSig).1 ≠ [] ∧
    (∃ pub sig, hexDecode bSig.PubKey = some pub ∧ hexDecode bSig.Signature = some sig ∧
      verAll pub (Sha.strBytes (calculateHash bSig)) sig = true) ∧
    (bNoSig.Signature = "" ∨ bNoSig.PubKey = "") ∧
    handleBlockMsg verAll [] bNoSig = ([], false, false) :=
  ⟨by decide, (C8_block_requires_signature verAll [] bSig).1 (by decide),
   Or.inl rfl, (C8_block_requires_signature verAll [] bNoSig).2 (Or.inl rfl)⟩

theorem overwrite_keys {α : Type} (m : List (String × α)) (k : String) (v : α) :
    (m.map (fun p => if p.1 = k then (k, v) else p)).map Prod.fst = m.map Prod.fst := by
  induction m with
  | nil => rfl
  | cons p ps ih => by_cases hp : p.1 = k <;> simp [hp, ih]

theorem mapInsert_keys {α : Type} (m : List (String × α)) (k : String) (v : α) :
    (mapInsert m k v).map Prod.fst =
      if k ∈ m.map Prod.fst then m.map Prod.fst else m.map Prod.fst ++ [k] := by
  unfold mapInsert
  by_cases h : k ∈ m.map Prod.fst
  · rw [if_pos (by simpa using h), if_pos h]
    exact overwrite_keys m k v
  · rw [if_neg (by simpa using h), if_neg h]
    simp

theorem mapInsert_keys_nodup {α : Type} (m : List (String × α)) (k : String) (v : α)
    (h : (m.map Prod.fst).Nodup) : ((mapInsert m k v).map Prod.fst).Nodup := by
  rw [mapInsert_keys]
  by_cases hm : k ∈ m.map Prod.fst
  · rw [if_pos hm]
    exact h
  · rw [if_neg hm]
    simp [List.nodup_append, h, hm]

theorem mapInsert_length_mem {α : Type} (m : List (String × α)) (k : String) (v : α)
    (h : k ∈ m.map Prod.fst) : (mapInsert m k v).length = m.length := by
  unfold mapInsert
  rw [if_pos (by simpa using h), List.length_map]

theorem mapInsert_length_value {α : Type} (m : List (String × α)) (k : String)
    (v v2 : α) : (mapInsert m k v).length = (mapInsert m k v2).length := by
  unfold mapInsert
  by_cases h : (m.map Prod.fst).contains k = true
  · rw [if_pos h, if_pos h]
    simp
  · rw [if_neg h, if_neg h]
    simp

theorem distinctVoters_eq_length {α : Type} (m : List (String × α))
    (h : (m.map Prod.fst).Nodup) : distinctVoters m = m.length := by
  unfold distinctVoters
  rw [List.dedup_eq_self.mpr h, List.length_map]

/-- C3: the Commit broadcast of the Prepare handler and the execution-bridge
commit notification of the Commit handler fire exactly when the
distinct-voter count recorded for that sequence reaches the 2n/3+1 quorum, n
being the size of the validator list (the roster, or the peer set when no
roster is configured); a vote from an already recorded voter overwrites and
never increases the count. -/
theorem C3_quorum_thresholds (roster : Option (List String)) (peers : List String)
    (prepTable : List (Int × List (String × PrepareMsg)))
    (commitTable : List (Int × List (String × CommitMsg)))
    (pm : PrepareMsg) (cm : CommitMsg)
    (hp : ((seqGet prepTable pm.Seq).map Prod.fst).Nodup)
    (hc : ((seqGet commitTable cm.Seq).map Prod.fst).Nodup) :
    ((HandlePBFTPrepare roster peers prepTable pm).2 = true ↔
      2 * (getValidatorList roster peers).length / 3 + 1 ≤
        distinctVoters (mapInsert (seqGet prepTable pm.Seq) pm.Voter pm)) ∧
    ((HandlePBFTCommit roster peers commitTable cm).2 = true ↔
      2 * (getValidatorList roster peers).length / 3 + 1 ≤
        distinctVoters (mapInsert (seqGet commitTable cm.Seq) cm.Voter cm)) ∧
    (pm.Voter ∈ (seqGet prepTable pm.Seq).map Prod.fst →
      distinctVoters (mapInsert (seqGet prepTable pm.Seq) pm.Voter pm) =
        distinctVoters (seqGet prepTable pm.Seq)) ∧
    (cm.Voter ∈ (seqGet commitTable cm.Seq).map Prod.fst →
      distinctVoters (mapInsert (seqGet commitTable cm.Seq) cm.Voter cm) =
        distinctVoters (seqGet commitTable cm.Seq)) ∧
    getValidatorList none peers = peers ∧
    (∀ r : List String, r ≠ [] → getValidatorList (some r) peers = r) := by
  refine ⟨?_, ?_, ?_, ?_, rfl, ?_⟩
  · simp only [HandlePBFTPrepare]
    rw [decide_eq_true_iff,
      distinctVoters_eq_length _ (mapInsert_keys_nodup _ _ _ hp)]
  · simp only [HandlePBFTCommit]
    rw [decide_eq_true_iff,
      distinctVoters_eq_length _ (mapInsert_keys_nodup _ _ _ hc)]
  · intro hmem
    rw [distinctVoters_eq_length _ (mapInsert_keys_nodup _ _ _ hp),
      distinctVoters_eq_length _ hp, mapInsert_length_mem _ _ _ hmem]
  · intro hmem
    rw [distinctVoters_eq_length _ (mapInsert_keys_nodup _ _ _ hc),
      distinctVoters_eq_length _ hc, mapInsert_length_mem _ _ _ hmem]
  · intro r hr
    have hlen : 0 < r.length := List.length_pos.mpr hr
    simp [getValidatorList, hlen]

/-- A commit vote with an empty signature field. -/
def cm1 : CommitMsg := { View := 0, Seq := 1, Hash := "hx1", Voter := "v1", Sig := "" }

/-- Witness for C3: empty tables, three-validator roster. -/
theorem C3_quorum_thresholds_witness :
    ((seqGet ([] : List (Int × List (String × PrepareMsg))) pm1.Seq).map
      Prod.fst).Nodup ∧
    ((seqGet ([] : List (Int × List (String × CommitMsg))) cm1.Seq).map
      Prod.fst).Nodup ∧
    ((HandlePBFTPrepare roster3 [] [] pm1).2 = true ↔
      2 * (getValidatorList roster3 []).length / 3 + 1 ≤
        distinctVoters (mapInsert (seqGet [] pm1.Seq) pm1.Voter pm1)) :=
  ⟨by decide, by decide,
   (C3_quorum_thresholds roster3 [] [] [] pm1 cm1 (by decide) (by decide)).1⟩

/-- C4 counterexample: with a three-validator roster (quorum 3), the third
prepare vote at sequence 1 fires the Commit broadcast although the recorded
votes split two against one over two different block hashes, so no single
(view, sequence, block hash) reaches the quorum on its own. -/
theorem C4_counterexample :
    (HandlePBFTPrepare roster3 []
      (HandlePBFTPrepare roster3 []
        (HandlePBFTPrepare roster3 [] [] pm1).1 pm2).1 pm3).2 = true ∧
    ((seqGet (HandlePBFTPrepare roster3 []
      (HandlePBFTPrepare roster3 []
        (HandlePBFTPrepare roster3 [] [] pm1).1 pm2).1 pm3).1 1).filter
          (fun p => p.2.Hash == "hx2")).length = 2 ∧
    ((seqGet (HandlePBFTPrepare roster3 []
      (HandlePBFTPrepare roster3 []
        (HandlePBFTPrepare roster3 [] [] pm1).1 pm2).1 pm3).1 1).filter
          (fun p => p.2.Hash == "hx1")).length = 1 ∧
    2 * (getValidatorList roster3 []).length / 3 + 1 = 3 := by
  decide

/-- C4 amended: the prepare and commit tables key votes by sequence and voter
only, so the quorum decision of each handler is unchanged when the incoming
vote carries any other block hash and view; counts pool the votes at a
sequence regardless of block hash and view. -/
theorem C4_amended_hash_view_blind (roster : Option (List String))
    (peers : List String)
    (prepTable : List (Int × List (String × PrepareMsg)))
    (commitTable : List (Int × List (String × CommitMsg)))
    (pm : PrepareMsg) (cm : CommitMsg) (h2 : String) (v2 : Int)
    (h3 : String) (v3 : Int) :
    (HandlePBFTPrepare roster peers prepTable { pm with Hash := h2, View := v2 }).2 =
      (HandlePBFTPrepare roster peers prepTable pm).2 ∧
    (HandlePBFTCommit roster peers commitTable { cm with Hash := h3, View := v3 }).2 =
      (HandlePBFTCommit roster peers commitTable cm).2 := by
  constructor
  · simp only [HandlePBFTPrepare]
    rw [mapInsert_length_value _ _ _ pm]
  · simp only [HandlePBFTCommit]
    rw [mapInsert_length_value _ _ _ cm]

/-- C5: the PBFT prepare and commit handlers record and count a vote whose
signature field is empty; no signature verification guards either handler. -/
theorem C5_unsigned_vote_recorded :
    pm1.Sig = "" ∧
    (HandlePBFTPrepare roster3 [] [] pm1).1 = [(1, [("v1", pm1)])] ∧
    distinctVoters (seqGet (HandlePBFTPrepare roster3 [] [] pm1).1 1) = 1 ∧
    cm1.Sig = "" ∧
    (HandlePBFTCommit roster3 [] [] cm1).1 = [(1, [("v1", cm1)])] ∧
    distinctVoters (seqGet (HandlePBFTCommit roster3 [] [] cm1).1 1) = 1 := by
  decide
